import Mathlib

/-!
Verification development for `uitbx` (`src/uitbx/keepers/JSONAttributeKeeper.py`).

The Python module is shallowly embedded as follows.

* Python runtime values are modelled by `Value`: JSON-native constructors
  (`str`, `int`, `bool`, `null`, `list`, `dict`), a `path` constructor for
  `pathlib.Path` objects (the only `os.PathLike` instances exercised by this
  program), and `other` for any remaining non-JSON-serializable object,
  carrying the display name of its type.
* A target object is modelled by its attribute mapping, an ordered
  association list from attribute name to value (`ValueDict`): `getattr`,
  `setattr` and `hasattr` act on it by key.  Python attribute assignment
  replaces the value of an existing name in place and appends a new name,
  exactly as association-list insertion does.
* Parsed JSON documents (the result of `json.load`) are modelled by
  `JValue`; decoded values are re-embedded into `Value` via `j2v`.  JSON
  decoding never produces a `path` or `other` value.
* Python exceptions are modelled by `Except Err`; each `Err` constructor
  records the exception class raised at one source location together with
  its message.
* Filesystem facts consulted by `validate_file_path` (existence and access
  bits) are an abstract state `FS`; file content is a `String`.
* `json.dump(obj, f, default=...)` streams chunks into an already-truncated
  file, so the writing path is modelled at two levels: `encodeValue` (the
  value → JSON translation with the converter fallback, fuelled to model
  Python's recursion limit) and `dumpText` (the streamed text, which on a
  conversion failure has already emitted the chunks preceding the failing
  value).  The chunk granularity is one dict entry: the `'\x7b'` and
  `'"key": '` chunks of an entry are emitted before its value is encoded,
  matching CPython's `iterencode` at the top level of the dumped dict.
-/

/-- Python exceptions raised by the module, with their messages. -/
inductive Err where
  /-- `FileNotFoundError` raised by `validate_file_path`. -/
  | fileNotFoundError (msg : String)
  /-- `PermissionError` raised by `validate_file_path`. -/
  | permissionError (msg : String)
  /-- `AttributeError` (raised by `_define_attrs`, or by `getattr` on a
      missing attribute). -/
  | attributeError (msg : String)
  /-- `TypeError` (raised by `convert_attr`, by `setup` on a non-dict file
      top level, and by `Path(...)` on a non-path, non-string argument). -/
  | typeError (msg : String)
  /-- Python's `RecursionError`: the model's fuel for the
      `json.dump`/`default` re-encoding loop ran out. -/
  | recursionError
deriving DecidableEq, Repr

mutual
/-- A Python runtime value, as far as this module distinguishes them. -/
inductive Value where
  | str (s : String)
  | int (n : Int)
  | bool (b : Bool)
  | null
  | list (xs : ValueList)
  | dict (kvs : ValueDict)
  /-- a `pathlib.Path` object holding the given path string -/
  | path (p : String)
  /-- any other object, not JSON-serializable; `tag` is `type(value)`'s
      display form -/
  | other (tag : String)
deriving DecidableEq, Repr

/-- A Python list of values. -/
inductive ValueList where
  | nil
  | cons (hd : Value) (tl : ValueList)
deriving DecidableEq, Repr

/-- A Python `dict` with string keys (also used as an object's attribute
    mapping), in insertion order. -/
inductive ValueDict where
  | nil
  | cons (k : String) (v : Value) (tl : ValueDict)
deriving DecidableEq, Repr
end

mutual
/-- A decoded JSON document (`json.load` result). -/
inductive JValue where
  | str (s : String)
  | int (n : Int)
  | bool (b : Bool)
  | null
  | arr (xs : JList)
  | obj (kvs : JObj)
deriving DecidableEq, Repr

/-- A JSON array. -/
inductive JList where
  | nil
  | cons (hd : JValue) (tl : JList)
deriving DecidableEq, Repr

/-- A JSON object, in document order.  `json.load` returns a `dict`, so its
    keys are distinct. -/
inductive JObj where
  | nil
  | cons (k : String) (v : JValue) (tl : JObj)
deriving DecidableEq, Repr
end

/-- A target object, identified with its attribute mapping. -/
abbrev Obj := ValueDict

/-- Look a key up in a `ValueDict` (first occurrence). -/
def dlookup : ValueDict → String → Option Value
  | .nil, _ => none
  | .cons k v rest, n => if k = n then some v else dlookup rest n

/-- Python assignment `d[k] = v` / `setattr(obj, k, v)`: replace the value at
    an existing key in place, append a fresh key at the end. -/
def dset : ValueDict → String → Value → ValueDict
  | .nil, k, v => .cons k v .nil
  | .cons k' v' rest, k, v =>
      if k' = k then .cons k' v rest else .cons k' v' (dset rest k v)

/-- The keys of a `ValueDict`, in order. -/
def dkeys : ValueDict → List String
  | .nil => []
  | .cons k _ rest => k :: dkeys rest

/-- Python `hasattr(obj, name)`. -/
def hasattr (obj : Obj) (name : String) : Bool :=
  (dlookup obj name).isSome

/-- Python `getattr(obj, name)`: raises `AttributeError` when absent. -/
def pyGetattr (obj : Obj) (name : String) : Except Err Value :=
  match dlookup obj name with
  | some v => .ok v
  | none => .error (.attributeError ("object has no attribute " ++ name))

/-- Look a key up in a `JObj` (first occurrence). -/
def jlookup : JObj → String → Option JValue
  | .nil, _ => none
  | .cons k v rest, n => if k = n then some v else jlookup rest n

/-- The keys of a `JObj`, in order. -/
def jkeys : JObj → List String
  | .nil => []
  | .cons k _ rest => k :: jkeys rest

mutual
/-- Re-embed a decoded JSON value into the runtime value model.  JSON
    decoding only ever yields native values: the result never uses `path`
    or `other`. -/
def j2v : JValue → Value
  | .str s => .str s
  | .int n => .int n
  | .bool b => .bool b
  | .null => .null
  | .arr xs => .list (j2vL xs)
  | .obj kvs => .dict (j2vD kvs)

/-- Elementwise `j2v` on a JSON array. -/
def j2vL : JList → ValueList
  | .nil => .nil
  | .cons x xs => .cons (j2v x) (j2vL xs)

/-- Entrywise `j2v` on a JSON object. -/
def j2vD : JObj → ValueDict
  | .nil => .nil
  | .cons k v rest => .cons k (j2v v) (j2vD rest)
end

mutual
/-- The JSON-native view of a runtime value: `some` exactly when
    `json.dump` can encode the value without consulting `default`
    converters (string, number, boolean, null, and nested lists /
    string-keyed dicts of the same). -/
def v2j : Value → Option JValue
  | .str s => some (.str s)
  | .int n => some (.int n)
  | .bool b => some (.bool b)
  | .null => some .null
  | .list xs => (v2jL xs).map .arr
  | .dict kvs => (v2jD kvs).map .obj
  | .path _ => none
  | .other _ => none

/-- Elementwise `v2j` on a list value. -/
def v2jL : ValueList → Option JList
  | .nil => some .nil
  | .cons x xs =>
      match v2j x, v2jL xs with
      | some j, some js => some (.cons j js)
      | _, _ => none

/-- Entrywise `v2j` on a dict value. -/
def v2jD : ValueDict → Option JObj
  | .nil => some .nil
  | .cons k v rest =>
      match v2j v, v2jD rest with
      | some j, some js => some (.cons k j js)
      | _, _ => none
end

/-- `isinstance(value, os.PathLike)`: of the modelled values, only
    `pathlib.Path` objects are path-like (notably, `str` is not). -/
def isPathLike : Value → Bool
  | .path _ => true
  | _ => false

/-- The display form of `type(value)`, as it appears in Python error
    messages. -/
def typeName : Value → String
  | .str _ => "<class 'str'>"
  | .int _ => "<class 'int'>"
  | .bool _ => "<class 'bool'>"
  | .null => "<class 'NoneType'>"
  | .list _ => "<class 'list'>"
  | .dict _ => "<class 'dict'>"
  | .path _ => "<class 'pathlib.PosixPath'>"
  | .other tag => tag

/-- Whether a POSIX path string is absolute (starts with `'/'`). -/
def isAbsolute (p : String) : Bool :=
  match p.data with
  | '/' :: _ => true
  | _ => false

/-- `str(Path(p).resolve())` for a path string `p`, with `cwd` the process
    working directory: an already-absolute path is returned as is, a
    relative one is anchored at `cwd`.  (Resolution of `.`/`..` components
    and symlinks is outside the model; no claim depends on it.) -/
def resolvePath (cwd p : String) : String :=
  if isAbsolute p then p else cwd ++ "/" ++ p

/-- The `Path(x)` constructor: accepts a string or an `os.PathLike`,
    raises `TypeError` otherwise. -/
def pathCtor : Value → Except Err Value
  | .str s => .ok (.path s)
  | .path p => .ok (.path p)
  | v => .error (.typeError
      ("argument should be a str or an os.PathLike object, not " ++ typeName v))

/-- One entry of the class-level `converters` mapping
    (`JSONAttributeKeeper.py:30-32`): a type category (the
    `isinstance` test) and the conversion function. -/
structure ConvEntry where
  cat : Value → Bool
  fn : Value → Value

/-- One entry of the class-level `setters` mapping
    (`JSONAttributeKeeper.py:37-39`): a type category for the attribute's
    current value and the setter run in its place. -/
structure SetEntry where
  cat : Value → Bool
  fn : Obj → String → Value → Except Err Obj

/-- The path string held by a path-like value (the default converter is
    only ever invoked on values matching `os.PathLike`). -/
def pathStr : Value → String
  | .path p => p
  | _ => ""

/-- The default `converters` registry (`JSONAttributeKeeper.py:30-32`):
    `os.PathLike ↦ lambda p: str(Path(p).resolve())`, with `cwd` the
    working directory `resolve` anchors at. -/
def defaultConverters (cwd : String) : List ConvEntry :=
  [⟨isPathLike, fun v => .str (resolvePath cwd (pathStr v))⟩]

/-- The default `setters` registry (`JSONAttributeKeeper.py:37-39`):
    `os.PathLike ↦ lambda obj, name, p: setattr(obj, name, Path(p))`. -/
def defaultSetters : List SetEntry :=
  [⟨isPathLike, fun obj name p => (pathCtor p).map (dset obj name)⟩]

/-- `JSONAttributeKeeper.convert_attr` (`JSONAttributeKeeper.py:51-61`):
    try the registered converter categories in registration order, apply
    the first whose `isinstance` test the value passes, raise `TypeError`
    when none matches. -/
def convert_attr (regs : List ConvEntry) (value : Value) : Except Err Value :=
  match regs with
  | [] => .error (.typeError (typeName value ++
      " is not a json serializable type by default and with provided converters"))
  | e :: rest => if e.cat value then .ok (e.fn value) else convert_attr rest value

/-- The loop of `JSONAttributeKeeper.set_attr` (`JSONAttributeKeeper.py:76-80`)
    after the current value `attr` has been read: run the first registered
    setter whose category matches `attr`, fall back to plain assignment of
    the raw value. -/
def set_attr_loop (regs : List SetEntry) (obj : Obj) (name : String)
    (value : Value) (attr : Value) : Except Err Obj :=
  match regs with
  | [] => .ok (dset obj name value)
  | e :: rest =>
      if e.cat attr then e.fn obj name value
      else set_attr_loop rest obj name value attr

/-- `JSONAttributeKeeper.set_attr` (`JSONAttributeKeeper.py:71-81`):
    read the attribute's current value, dispatch on its type. -/
def set_attr (regs : List SetEntry) (obj : Obj) (name : String)
    (value : Value) : Except Err Obj :=
  (pyGetattr obj name).bind (set_attr_loop regs obj name value)

/-- The filesystem facts `validate_file_path` consults: existence and the
    `os.access` read/write bits of a path. -/
structure FS where
  pathExists : String → Bool
  readable : String → Bool
  writable : String → Bool

/-- Split a character list at every `'/'` (the slash-separated components
    of a path, like `str.split('/')`). -/
def splitSlash : List Char → List (List Char)
  | [] => [[]]
  | c :: rest =>
      if c = '/' then [] :: splitSlash rest
      else
        match splitSlash rest with
        | [] => [[c]]
        | g :: gs => (c :: g) :: gs

/-- Rejoin path components with `'/'`. -/
def joinSlash : List (List Char) → List Char
  | [] => []
  | [g] => g
  | g :: gs => g ++ '/' :: joinSlash gs

/-- `Path(p).parent`: the path with its last component removed (`'.'` for a
    bare file name, `'/'` for a child of the root). -/
def parentDir (p : String) : String :=
  match (splitSlash p.data).dropLast with
  | [] => "."
  | [[]] => "/"
  | parts => ⟨joinSlash parts⟩

/-- `validate_file_path` (`JSONAttributeKeeper.py:9-19`): when the file
    does not exist its parent directory must, and the file (or, failing
    that, the parent directory) must be readable and writable; the path is
    returned unchanged and nothing is created. -/
def validate_file_path (fs : FS) (file_path : String) : Except Err String :=
  let file := file_path
  if ¬ fs.pathExists file then
    if ¬ fs.pathExists (parentDir file) then
      .error (.fileNotFoundError (parentDir file ++ " directory does not exist"))
    else
      let path_to_check := parentDir file
      if fs.readable path_to_check ∧ fs.writable path_to_check then .ok file
      else .error (.permissionError (path_to_check ++ " is not readable or writable"))
  else
    let path_to_check := file
    if fs.readable path_to_check ∧ fs.writable path_to_check then .ok file
    else .error (.permissionError (path_to_check ++ " is not readable or writable"))

mutual
/-- The JSON encoder under `json.dump(..., default=convert_attr)`
    (`JSONAttributeKeeper.py:67-68`): native values encode structurally;
    a non-native value is passed to `convert_attr` and the converter's
    result is encoded in its place.  `fuel` bounds the converter
    re-encoding chain, modelling Python's recursion limit; it is not
    consumed by structural descent, so any result obtained at some fuel is
    the encoder's true answer. -/
def encodeValue (regs : List ConvEntry) (fuel : Nat) : Value → Except Err JValue
  | .str s => .ok (.str s)
  | .int n => .ok (.int n)
  | .bool b => .ok (.bool b)
  | .null => .ok .null
  | .list xs => (encodeList regs fuel xs).map .arr
  | .dict kvs => (encodeDict regs fuel kvs).map .obj
  | .path p =>
      match fuel with
      | 0 => .error .recursionError
      | fuel' + 1 =>
          match convert_attr regs (.path p) with
          | .error e => .error e
          | .ok c => encodeValue regs fuel' c
  | .other tag =>
      match fuel with
      | 0 => .error .recursionError
      | fuel' + 1 =>
          match convert_attr regs (.other tag) with
          | .error e => .error e
          | .ok c => encodeValue regs fuel' c
termination_by v => (fuel, sizeOf v)

/-- Elementwise encoding of a list value. -/
def encodeList (regs : List ConvEntry) (fuel : Nat) : ValueList → Except Err JList
  | .nil => .ok .nil
  | .cons x xs =>
      (encodeValue regs fuel x).bind fun j =>
        (encodeList regs fuel xs).map (JList.cons j)
termination_by xs => (fuel, sizeOf xs)

/-- Entrywise encoding of a dict value. -/
def encodeDict (regs : List ConvEntry) (fuel : Nat) : ValueDict → Except Err JObj
  | .nil => .ok .nil
  | .cons k v rest =>
      (encodeValue regs fuel v).bind fun j =>
        (encodeDict regs fuel rest).map (JObj.cons k j)
termination_by kvs => (fuel, sizeOf kvs)
end

/-- JSON escaping of the characters of a string (quotes and backslashes;
    enough for the strings this development evaluates). -/
def escapeChars : List Char → List Char
  | [] => []
  | c :: rest =>
      if c = '"' then '\\' :: '"' :: escapeChars rest
      else if c = '\\' then '\\' :: '\\' :: escapeChars rest
      else c :: escapeChars rest

/-- JSON string escaping. -/
def escapeJ (s : String) : String :=
  ⟨escapeChars s.data⟩

mutual
/-- The serialized text of a JSON value, with `json.dump`'s default
    separators (`', '` and `': '`). -/
def jsonText : JValue → String
  | .str s => "\"" ++ escapeJ s ++ "\""
  | .int n => toString n
  | .bool b => if b then "true" else "false"
  | .null => "null"
  | .arr xs => "[" ++ jsonArrInner true xs ++ "]"
  | .obj kvs => "\x7b" ++ jsonObjInner true kvs ++ "\x7d"

/-- The comma-separated items of a serialized JSON array; `first` is true
    before the first item. -/
def jsonArrInner (first : Bool) : JList → String
  | .nil => ""
  | .cons x xs =>
      (if first then "" else ", ") ++ jsonText x ++ jsonArrInner false xs

/-- The comma-separated entries of a serialized JSON object. -/
def jsonObjInner (first : Bool) : JObj → String
  | .nil => ""
  | .cons k v rest =>
      (if first then "" else ", ") ++ "\"" ++ escapeJ k ++ "\": " ++
        jsonText v ++ jsonObjInner false rest
end

/-- The streamed output of `json.dump` on the entries of the saved dict:
    the text written to the file so far, and the conversion error that
    interrupted the stream, if any.  The chunks naming an entry are
    written before its value is encoded, so a failing entry leaves its
    `'"key": '` prefix behind. -/
def dumpEntries (regs : List ConvEntry) (fuel : Nat) :
    Bool → ValueDict → String × Option Err
  | _, .nil => ("", none)
  | first, .cons k v rest =>
      let keyPart := (if first then "" else ", ") ++ "\"" ++ escapeJ k ++ "\": "
      match encodeValue regs fuel v with
      | .error e => (keyPart, some e)
      | .ok j =>
          let tail := dumpEntries regs fuel false rest
          (keyPart ++ jsonText j ++ tail.1, tail.2)

/-- `json.dump(d, f, default=convert_attr)` for a top-level dict `d`: the
    text that ends up in the (already truncated) file, and the error that
    aborted the dump, if any.  Only a completed dump emits the closing
    brace. -/
def dumpText (regs : List ConvEntry) (fuel : Nat) (d : ValueDict) :
    String × Option Err :=
  let body := dumpEntries regs fuel true d
  match body.2 with
  | none => ("\x7b" ++ body.1 ++ "\x7d", none)
  | some e => ("\x7b" ++ body.1, some e)

/-- The loop of the `_attrs_to_save` dict comprehension
    (`JSONAttributeKeeper.py:109-111`) with accumulator `acc`: iterate the
    tracked names in order, binding each to the attribute's current value
    (a repeated name overwrites its earlier entry in place). -/
def attrs_to_save_loop (obj : Obj) (acc : ValueDict) :
    List String → Except Err ValueDict
  | [] => .ok acc
  | n :: rest =>
      match dlookup obj n with
      | some v => attrs_to_save_loop obj (dset acc n v) rest
      | none => .error (.attributeError ("object has no attribute " ++ n))

/-- `JSONAttributeKeeper._attrs_to_save` (`JSONAttributeKeeper.py:109-111`):
    `\x7battr_name: getattr(self.obj, attr_name) for attr_name in self.attrs\x7d`. -/
def attrs_to_save (obj : Obj) (attrs : List String) : Except Err ValueDict :=
  attrs_to_save_loop obj .nil attrs

/-- The value-level content of `JSONAttributeKeeper.save`
    (`JSONAttributeKeeper.py:63-69`): the JSON document `json.dump` writes
    on success (the saved dict, encoded with the converter fallback). -/
def saveJSON (regs : List ConvEntry) (fuel : Nat) (obj : Obj)
    (attrs : List String) : Except Err JValue :=
  (attrs_to_save obj attrs).bind fun d => encodeValue regs fuel (.dict d)

/-- `JSONAttributeKeeper.save` acting on the backing file
    (`JSONAttributeKeeper.py:63-69`), given the file's prior content
    (`none` when the file does not exist): `touch()` creates the file,
    `open(mode='w')` truncates it, `_attrs_to_save` is only evaluated
    after that, and `json.dump` then streams into it.  Returns the
    content afterwards and the error raised, if any. -/
def fullSave (regs : List ConvEntry) (fuel : Nat) (attrs : List String)
    (obj : Obj) (prior : Option String) : Option String × Option Err :=
  -- self.file.touch(): the file now exists (content preserved if it did)
  let _afterTouch : Option String := some (prior.getD "")
  -- self.file.open(mode='w'): content truncated to "" before json.dump
  -- evaluates its argument `self._attrs_to_save`
  match attrs_to_save obj attrs with
  | .error e => (some "", some e)
  | .ok d =>
      let out := dumpText regs fuel d
      (some out.1, out.2)

/-- The loop of `JSONAttributeKeeper.setup` (`JSONAttributeKeeper.py:93-96`):
    iterate the parsed file's entries in document order, skip keys outside
    the tracked names, and assign the rest through `set_attr`. -/
def setup_items (regs : List SetEntry) (tracked : List String) :
    Obj → JObj → Except Err Obj
  | obj, .nil => .ok obj
  | obj, .cons k v rest =>
      if k ∈ tracked then
        match set_attr regs obj k (j2v v) with
        | .error e => .error e
        | .ok obj' => setup_items regs tracked obj' rest
      else setup_items regs tracked obj rest

/-- `JSONAttributeKeeper.setup` (`JSONAttributeKeeper.py:83-96`), with the
    backing file given as its parsed content (`none` when it does not
    exist): a missing file is a no-op, a non-dict top level raises
    `TypeError`, and otherwise the entries are restored in file order. -/
def setup (regs : List SetEntry) (tracked : List String)
    (file : Option JValue) (obj : Obj) : Except Err Obj :=
  match file with
  | none => .ok obj
  | some saved =>
      match saved with
      | .obj kvs => setup_items regs tracked obj kvs
      | _ => .error (.typeError "Unsupported structure of the preferences file")

/-- The loop of `JSONAttributeKeeper._define_attrs`
    (`JSONAttributeKeeper.py:98-107`): each requested name is checked
    independently against the target object (the name-is-a-string check is
    carried by the `String` type here). -/
def check_attrs (obj : Obj) : List String → Except Err Unit
  | [] => .ok ()
  | a :: rest =>
      if hasattr obj a then check_attrs obj rest
      else .error (.attributeError ("Object doesn't have attribute '" ++ a ++ "'"))

/-- `JSONAttributeKeeper._define_attrs` (`JSONAttributeKeeper.py:98-107`):
    validate every requested name and return the tuple of names as given
    (duplicates included). -/
def define_attrs (obj : Obj) (args : List String) : Except Err (List String) :=
  (check_attrs obj args).map fun _ => args

/-- The process state the module's default argument depends on. -/
structure Proc where
  cwd : String
deriving DecidableEq, Repr

/-- `os.chdir`. -/
def chdir (_s : Proc) (d : String) : Proc := ⟨d⟩

/-- The default value of `__init__`'s `file` parameter,
    `Path.cwd() / 'preferences.json'` (`JSONAttributeKeeper.py:44`): being
    a Python default argument, this expression is evaluated once, when the
    `def` statement runs at module import, in the importing process's
    working directory. -/
def pyImportDefault (s : Proc) : String :=
  s.cwd ++ "/preferences.json"

/-- `JSONAttributeKeeper.__init__` (`JSONAttributeKeeper.py:41-49`):
    validate the file path (the captured default `defaultArg` standing in
    when the caller passes none), then validate the attribute names.
    Returns the stored `(file, attrs)` pair. -/
def keeperInit (fs : FS) (obj : Obj) (attrs : List String)
    (fileArg : Option String) (defaultArg : String) :
    Except Err (String × List String) :=
  (validate_file_path fs (fileArg.getD defaultArg)).bind fun f =>
    (define_attrs obj attrs).map fun a => (f, a)

/-! ### Induction principles

The inductives above live in `mutual` blocks, so their primitive recursors
take several motives; these single-motive principles drive `induction`. -/

/-- Structural induction over a `ValueDict` alone. -/
theorem valueDictInduction {motive : ValueDict → Prop} (d : ValueDict)
    (nil : motive .nil)
    (cons : ∀ k v rest, motive rest → motive (.cons k v rest)) : motive d :=
  match d with
  | .nil => nil
  | .cons k v rest => cons k v rest (valueDictInduction rest nil cons)

/-- Structural induction over a `JObj` alone. -/
theorem jObjInduction {motive : JObj → Prop} (d : JObj)
    (nil : motive .nil)
    (cons : ∀ k v rest, motive rest → motive (.cons k v rest)) : motive d :=
  match d with
  | .nil => nil
  | .cons k v rest => cons k v rest (jObjInduction rest nil cons)

/-! ### Attribute-mapping lemmas -/

/-- Assignment changes exactly the assigned key. -/
theorem dlookup_dset (d : ValueDict) (k n : String) (v : Value) :
    dlookup (dset d k v) n = if k = n then some v else dlookup d n := by
  induction d using valueDictInduction with
  | nil => simp [dset, dlookup]
  | cons k' v' rest ih =>
      simp only [dset]
      by_cases h1 : k' = k
      · subst h1
        simp only [if_pos rfl, dlookup]
        by_cases h2 : k' = n <;> simp [h2]
      · simp only [if_neg h1, dlookup, ih]
        by_cases h2 : k' = n
        · subst h2
          have : ¬ k = k' := fun h => h1 h.symm
          simp [this]
        · simp [h2]

/-- A key is found exactly when it is among the keys. -/
theorem dlookup_isSome_iff (d : ValueDict) (n : String) :
    (dlookup d n).isSome ↔ n ∈ dkeys d := by
  induction d using valueDictInduction with
  | nil => simp [dlookup, dkeys]
  | cons k v rest ih =>
      simp only [dlookup, dkeys, List.mem_cons]
      by_cases h : k = n
      · simp [h]
      · have h' : ¬ n = k := fun hh => h hh.symm
        simp [h, h', ih]

/-- Assignment to a present key keeps the key list; to a fresh key it
    appends the key. -/
theorem dkeys_dset (d : ValueDict) (k : String) (v : Value) :
    dkeys (dset d k v) = if k ∈ dkeys d then dkeys d else dkeys d ++ [k] := by
  induction d using valueDictInduction with
  | nil => simp [dset, dkeys]
  | cons k' v' rest ih =>
      simp only [dset, dkeys, List.mem_cons]
      by_cases h1 : k' = k
      · subst h1
        simp [dkeys]
      · have h1' : ¬ k = k' := fun h => h1 h.symm
        simp only [if_neg h1, dkeys, ih]
        by_cases h2 : k ∈ dkeys rest <;> simp [h1', h2]

/-- Assignment preserves distinctness of the keys. -/
theorem nodup_dkeys_dset (d : ValueDict) (k : String) (v : Value)
    (h : (dkeys d).Nodup) : (dkeys (dset d k v)).Nodup := by
  rw [dkeys_dset]
  by_cases hk : k ∈ dkeys d
  · simpa [hk] using h
  · simp only [if_neg hk]
    exact List.Nodup.append h (List.nodup_singleton k)
      (by simpa [List.disjoint_singleton] using hk)

/-- A key is found in a `JObj` exactly when it is among its keys. -/
theorem jlookup_isSome_iff (d : JObj) (n : String) :
    (jlookup d n).isSome ↔ n ∈ jkeys d := by
  induction d using jObjInduction with
  | nil => simp [jlookup, jkeys]
  | cons k v rest ih =>
      simp only [jlookup, jkeys, List.mem_cons]
      by_cases h : k = n
      · simp [h]
      · have h' : ¬ n = k := fun hh => h hh.symm
        simp [h, h', ih]

/-! ### JSON decoding lemmas -/

/-- A decoded JSON value is never path-like. -/
theorem isPathLike_j2v (j : JValue) : isPathLike (j2v j) = false := by
  cases j <;> simp [j2v, isPathLike]

mutual
/-- Decoding inverts the native view of a value. -/
theorem j2v_v2j : ∀ (v : Value) (j : JValue), v2j v = some j → j2v j = v
  | .str s, j, h => by simp [v2j] at h; subst h; rfl
  | .int n, j, h => by simp [v2j] at h; subst h; rfl
  | .bool b, j, h => by simp [v2j] at h; subst h; rfl
  | .null, j, h => by simp [v2j] at h; subst h; rfl
  | .list xs, j, h => by
      simp only [v2j, Option.map_eq_some'] at h
      obtain ⟨js, hjs, rfl⟩ := h
      simp [j2v, j2vL_v2jL xs js hjs]
  | .dict kvs, j, h => by
      simp only [v2j, Option.map_eq_some'] at h
      obtain ⟨js, hjs, rfl⟩ := h
      simp [j2v, j2vD_v2jD kvs js hjs]

/-- Elementwise version of `j2v_v2j`. -/
theorem j2vL_v2jL : ∀ (xs : ValueList) (js : JList), v2jL xs = some js → j2vL js = xs
  | .nil, js, h => by simp [v2jL] at h; subst h; rfl
  | .cons x xs, js, h => by
      simp only [v2jL] at h
      cases hx : v2j x with
      | none => simp [hx] at h
      | some jx =>
          cases hxs : v2jL xs with
          | none => simp [hx, hxs] at h
          | some jxs =>
              simp [hx, hxs] at h
              subst h
              simp [j2vL, j2v_v2j x jx hx, j2vL_v2jL xs jxs hxs]

/-- Entrywise version of `j2v_v2j`. -/
theorem j2vD_v2jD : ∀ (kvs : ValueDict) (js : JObj), v2jD kvs = some js → j2vD js = kvs
  | .nil, js, h => by simp [v2jD] at h; subst h; rfl
  | .cons k v rest, js, h => by
      simp only [v2jD] at h
      cases hx : v2j v with
      | none => simp [hx] at h
      | some jx =>
          cases hxs : v2jD rest with
          | none => simp [hx, hxs] at h
          | some jxs =>
              simp [hx, hxs] at h
              subst h
              simp [j2vD, j2v_v2j v jx hx, j2vD_v2jD rest jxs hxs]
end

mutual
/-- `json.dump` encodes a native value structurally, never consulting the
    converters, at any fuel. -/
theorem encodeValue_native (regs : List ConvEntry) (fuel : Nat) :
    ∀ (v : Value) (j : JValue), v2j v = some j → encodeValue regs fuel v = .ok j
  | .str s, j, h => by simp [v2j] at h; subst h; simp [encodeValue]
  | .int n, j, h => by simp [v2j] at h; subst h; simp [encodeValue]
  | .bool b, j, h => by simp [v2j] at h; subst h; simp [encodeValue]
  | .null, j, h => by simp [v2j] at h; subst h; simp [encodeValue]
  | .list xs, j, h => by
      simp only [v2j, Option.map_eq_some'] at h
      obtain ⟨js, hjs, rfl⟩ := h
      simp [encodeValue, encodeList_native regs fuel xs js hjs, Except.map]
  | .dict kvs, j, h => by
      simp only [v2j, Option.map_eq_some'] at h
      obtain ⟨js, hjs, rfl⟩ := h
      simp [encodeValue, encodeDict_native regs fuel kvs js hjs, Except.map]

/-- Elementwise version of `encodeValue_native`. -/
theorem encodeList_native (regs : List ConvEntry) (fuel : Nat) :
    ∀ (xs : ValueList) (js : JList), v2jL xs = some js → encodeList regs fuel xs = .ok js
  | .nil, js, h => by simp [v2jL] at h; subst h; simp [encodeList]
  | .cons x xs, js, h => by
      simp only [v2jL] at h
      cases hx : v2j x with
      | none => simp [hx] at h
      | some jx =>
          cases hxs : v2jL xs with
          | none => simp [hx, hxs] at h
          | some jxs =>
              simp [hx, hxs] at h
              subst h
              simp [encodeList, encodeValue_native regs fuel x jx hx,
                encodeList_native regs fuel xs jxs hxs, Except.bind, Except.map]

/-- Entrywise version of `encodeValue_native`. -/
theorem encodeDict_native (regs : List ConvEntry) (fuel : Nat) :
    ∀ (kvs : ValueDict) (js : JObj), v2jD kvs = some js → encodeDict regs fuel kvs = .ok js
  | .nil, js, h => by simp [v2jD] at h; subst h; simp [encodeDict]
  | .cons k v rest, js, h => by
      simp only [v2jD] at h
      cases hx : v2j v with
      | none => simp [hx] at h
      | some jx =>
          cases hxs : v2jD rest with
          | none => simp [hx, hxs] at h
          | some jxs =>
              simp [hx, hxs] at h
              subst h
              simp [encodeDict, encodeValue_native regs fuel v jx hx,
                encodeDict_native regs fuel rest jxs hxs, Except.bind, Except.map]
end

/-! ### Characterizations of the registry dispatch -/

/-- `convert_attr` applies the first registered category matching the value
    and raises `TypeError` naming the value's type when none does. -/
theorem convert_attr_eq_find (regs : List ConvEntry) (v : Value) :
    convert_attr regs v =
      match regs.find? (fun e => e.cat v) with
      | some e => .ok (e.fn v)
      | none => .error (.typeError (typeName v ++
          " is not a json serializable type by default and with provided converters")) := by
  induction regs with
  | nil => simp [convert_attr]
  | cons e rest ih =>
      simp only [convert_attr, List.find?]
      cases he : e.cat v <;> simp [he, ih]

/-- The `set_attr` loop runs the first registered setter whose category
    matches the current value, and falls back to a plain assignment. -/
theorem set_attr_loop_eq_find (regs : List SetEntry) (obj : Obj)
    (name : String) (value attr : Value) :
    set_attr_loop regs obj name value attr =
      match regs.find? (fun e => e.cat attr) with
      | some e => e.fn obj name value
      | none => .ok (dset obj name value) := by
  induction regs with
  | nil => simp [set_attr_loop]
  | cons e rest ih =>
      simp only [set_attr_loop, List.find?]
      cases he : e.cat attr <;> simp [he, ih]

/-- `set_attr` with the current value made explicit. -/
theorem set_attr_eq_find (regs : List SetEntry) (obj : Obj) (name : String)
    (value cur : Value) (h : dlookup obj name = some cur) :
    set_attr regs obj name value =
      match regs.find? (fun e => e.cat cur) with
      | some e => e.fn obj name value
      | none => .ok (dset obj name value) := by
  simp only [set_attr, pyGetattr, h]
  exact set_attr_loop_eq_find regs obj name value cur

/-- Proof-side abbreviation: with the default registry, the value stored by
    one restore step is `Path(raw)` when the current value is path-like
    and `raw` itself otherwise. -/
def stepValE (cur raw : Value) : Except Err Value :=
  if isPathLike cur then pathCtor raw else .ok raw

/-- `set_attr` under the default `setters` registry. -/
theorem set_attr_default_spec (obj : Obj) (name : String) (raw cur : Value)
    (h : dlookup obj name = some cur) :
    set_attr defaultSetters obj name raw = (stepValE cur raw).map (dset obj name) := by
  rw [set_attr_eq_find defaultSetters obj name raw cur h]
  simp only [defaultSetters, stepValE, List.find?]
  cases hp : isPathLike cur
  · simp [hp, Except.map]
  · simp [hp]

/-- `stepValE` depends on the current value only through its path-likeness. -/
theorem stepValE_congr (c c' raw : Value) (h : isPathLike c = isPathLike c') :
    stepValE c raw = stepValE c' raw := by
  simp [stepValE, h]

/-- A successful restore step preserves path-likeness, provided the raw
    value is not itself path-like (raw values are decoded JSON, so they
    never are). -/
theorem stepValE_isPathLike (cur raw w : Value) (h : stepValE cur raw = .ok w)
    (hraw : isPathLike raw = false) : isPathLike w = isPathLike cur := by
  simp only [stepValE] at h
  cases hp : isPathLike cur
  · simp only [hp, Bool.false_eq_true, if_false] at h
    cases h
    exact hraw
  · simp only [hp, if_true] at h
    cases raw <;> simp [pathCtor] at h <;> subst h <;> rfl

/-! ### Proof-side views of a restore run -/

/-- Whether the parsed file has an entry at key `n` that `setup` assigns
    (the key is also tracked). -/
def jassigned (tracked : List String) : JObj → String → Bool
  | .nil, _ => false
  | .cons k _ rest, n =>
      (decide (k = n) && decide (k ∈ tracked)) || jassigned tracked rest n

/-- Presence and path-likeness of an attribute: the dispatch-relevant part
    of an object's state under the default `setters` registry. -/
def kindAt (obj : Obj) (n : String) : Option Bool :=
  (dlookup obj n).map isPathLike

/-- Decomposition of a successful `set_attr` under the default registry:
    the current value was present, the stored value is given by `stepValE`,
    and only the named attribute changes. -/
theorem set_attr_default_ok (obj : Obj) (k : String) (raw : Value) (obj₁ : Obj)
    (h : set_attr defaultSetters obj k raw = .ok obj₁) :
    ∃ cur w, dlookup obj k = some cur ∧ stepValE cur raw = .ok w ∧
      obj₁ = dset obj k w := by
  cases hcur : dlookup obj k with
  | none => simp [set_attr, pyGetattr, hcur, Except.bind] at h
  | some cur =>
      rw [set_attr_default_spec obj k raw cur hcur] at h
      cases hsv : stepValE cur raw with
      | error e => rw [hsv] at h; simp [Except.map] at h
      | ok w =>
          rw [hsv] at h
          simp only [Except.map, Except.ok.injEq] at h
          exact ⟨cur, w, rfl, hsv, h.symm⟩

/-- One default-registry restore step leaves every attribute's presence and
    path-likeness unchanged. -/
theorem kindAt_step (obj : Obj) (k : String) (jv : JValue) (cur w : Value)
    (hcur : dlookup obj k = some cur) (hsv : stepValE cur (j2v jv) = .ok w) :
    ∀ n, kindAt (dset obj k w) n = kindAt obj n := by
  intro n
  simp only [kindAt, dlookup_dset]
  by_cases hk : k = n
  · subst hk
    rw [if_pos rfl, hcur]
    simp [stepValE_isPathLike cur (j2v jv) w hsv (isPathLike_j2v jv)]
  · rw [if_neg hk]

/-- Frame property of the restore loop under the default registry: a key
    without a tracked entry in the file keeps its value. -/
theorem setup_items_frame (tracked : List String) :
    ∀ (kvs : JObj) (obj obj' : Obj),
    setup_items defaultSetters tracked obj kvs = .ok obj' →
    ∀ n, jassigned tracked kvs n = false → dlookup obj' n = dlookup obj n := by
  intro kvs
  induction kvs using jObjInduction with
  | nil =>
      intro obj obj' h n _
      simp only [setup_items, Except.ok.injEq] at h
      rw [h]
  | cons k v rest ih =>
      intro obj obj' h n hn
      simp only [setup_items] at h
      simp only [jassigned, Bool.or_eq_false_iff, Bool.and_eq_false_iff,
        decide_eq_false_iff_not] at hn
      by_cases htr : k ∈ tracked
      · rw [if_pos htr] at h
        cases hset : set_attr defaultSetters obj k (j2v v) with
        | error e => rw [hset] at h; cases h
        | ok obj₁ =>
            rw [hset] at h
            obtain ⟨cur, w, hcur, hsv, rfl⟩ := set_attr_default_ok obj k (j2v v) obj₁ hset
            have hkn : ¬ k = n := by
              rcases hn.1 with h' | h'
              · exact h'
              · exact absurd htr h'
            have := ih (dset obj k w) obj' h n hn.2
            rw [this, dlookup_dset, if_neg hkn]
      · rw [if_neg htr] at h
        exact ih obj obj' h n hn.2

/-- The restore loop under the default registry preserves every attribute's
    presence and path-likeness. -/
theorem setup_items_kind (tracked : List String) :
    ∀ (kvs : JObj) (obj obj' : Obj),
    setup_items defaultSetters tracked obj kvs = .ok obj' →
    ∀ n, kindAt obj' n = kindAt obj n := by
  intro kvs
  induction kvs using jObjInduction with
  | nil =>
      intro obj obj' h n
      simp only [setup_items, Except.ok.injEq] at h
      rw [h]
  | cons k v rest ih =>
      intro obj obj' h n
      simp only [setup_items] at h
      by_cases htr : k ∈ tracked
      · rw [if_pos htr] at h
        cases hset : set_attr defaultSetters obj k (j2v v) with
        | error e => rw [hset] at h; cases h
        | ok obj₁ =>
            rw [hset] at h
            obtain ⟨cur, w, hcur, hsv, rfl⟩ := set_attr_default_ok obj k (j2v v) obj₁ hset
            rw [ih (dset obj k w) obj' h n, kindAt_step obj k v cur w hcur hsv n]
      · rw [if_neg htr] at h
        exact ih obj obj' h n

/-- Replaying the restore loop from a state with the same per-attribute
    presence and path-likeness reproduces the first run's result on every
    assigned key and leaves the rest of the starting state alone. -/
theorem setup_items_replay (tracked : List String) :
    ∀ (kvs : JObj) (obj₁ obj₂ obj₁' : Obj),
    setup_items defaultSetters tracked obj₁ kvs = .ok obj₁' →
    (∀ n, kindAt obj₂ n = kindAt obj₁ n) →
    ∃ obj₂', setup_items defaultSetters tracked obj₂ kvs = .ok obj₂' ∧
      ∀ n, dlookup obj₂' n =
        if jassigned tracked kvs n then dlookup obj₁' n else dlookup obj₂ n := by
  intro kvs
  induction kvs using jObjInduction with
  | nil =>
      intro obj₁ obj₂ obj₁' h _
      simp only [setup_items, Except.ok.injEq] at h
      exact ⟨obj₂, rfl, fun n => by simp [jassigned]⟩
  | cons k v rest ih =>
      intro obj₁ obj₂ obj₁' h hkind
      simp only [setup_items] at h
      by_cases htr : k ∈ tracked
      · rw [if_pos htr] at h
        cases hset : set_attr defaultSetters obj₁ k (j2v v) with
        | error e => rw [hset] at h; cases h
        | ok obj₁mid =>
            rw [hset] at h
            obtain ⟨cur₁, w, hcur₁, hsv₁, rfl⟩ :=
              set_attr_default_ok obj₁ k (j2v v) obj₁mid hset
            -- the second state holds a value of the same kind at `k`
            have hk2 : kindAt obj₂ k = some (isPathLike cur₁) := by
              rw [hkind k]; simp [kindAt, hcur₁]
            obtain ⟨cur₂, hcur₂, hpl⟩ :
                ∃ cur₂, dlookup obj₂ k = some cur₂ ∧ isPathLike cur₂ = isPathLike cur₁ := by
              cases hc : dlookup obj₂ k with
              | none => rw [kindAt, hc] at hk2; cases hk2
              | some c =>
                  rw [kindAt, hc] at hk2
                  simp only [Option.map_some', Option.some.injEq] at hk2
                  exact ⟨c, rfl, hk2⟩
            have hsv₂ : stepValE cur₂ (j2v v) = .ok w := by
              rw [stepValE_congr cur₂ cur₁ (j2v v) hpl]; exact hsv₁
            have hset₂ : set_attr defaultSetters obj₂ k (j2v v) = .ok (dset obj₂ k w) := by
              rw [set_attr_default_spec obj₂ k (j2v v) cur₂ hcur₂, hsv₂]; rfl
            have hkind' : ∀ n, kindAt (dset obj₂ k w) n = kindAt (dset obj₁ k w) n := by
              intro n
              rw [kindAt_step obj₂ k v cur₂ w hcur₂ hsv₂ n,
                kindAt_step obj₁ k v cur₁ w hcur₁ hsv₁ n]
              exact hkind n
            obtain ⟨obj₂', hrun, hchar⟩ :=
              ih (dset obj₁ k w) (dset obj₂ k w) obj₁' h hkind'
            refine ⟨obj₂', ?_, ?_⟩
            · simp only [setup_items, if_pos htr, hset₂]
              exact hrun
            · intro n
              by_cases hj : jassigned tracked rest n
              · have : jassigned tracked (.cons k v rest) n = true := by
                  simp [jassigned, hj]
                rw [this, if_pos rfl, hchar n, if_pos hj]
              · rw [hchar n, if_neg hj]
                by_cases hkn : k = n
                · subst hkn
                  have hcons : jassigned tracked (.cons k v rest) k = true := by
                    simp [jassigned, htr]
                  rw [hcons, if_pos rfl]
                  have hfr := setup_items_frame tracked rest (dset obj₁ k w) obj₁' h k
                    (by simpa using hj)
                  rw [hfr, dlookup_dset, if_pos rfl, dlookup_dset, if_pos rfl]
                · have hcons : jassigned tracked (.cons k v rest) n = false := by
                    simp [jassigned, hkn, by simpa using hj]
                  rw [hcons, if_neg (by simp), dlookup_dset, if_neg hkn]
      · rw [if_neg htr] at h
        obtain ⟨obj₂', hrun, hchar⟩ := ih obj₁ obj₂ obj₁' h hkind
        refine ⟨obj₂', ?_, ?_⟩
        · simp only [setup_items, if_neg htr]
          exact hrun
        · intro n
          have : jassigned tracked (.cons k v rest) n = jassigned tracked rest n := by
            simp [jassigned, htr]
          rw [this]
          exact hchar n

/-- The value each attribute holds after a restore run over a file with
    distinct keys, predicted from the starting state: an assigned key gets
    its step result, everything else is untouched. -/
def expectedAfter (obj : Obj) (tracked : List String) (kvs : JObj)
    (n : String) : Option Value :=
  match jlookup kvs n with
  | some jv =>
      if n ∈ tracked then
        match dlookup obj n with
        | some c => (stepValE c (j2v jv)).toOption
        | none => none
      else dlookup obj n
  | none => dlookup obj n

/-- A restore run over a file with distinct keys succeeds as soon as every
    tracked entry's step does, and then every attribute ends at its
    predicted value. -/
theorem setup_items_nodup_run (tracked : List String) :
    ∀ (kvs : JObj) (obj : Obj),
    (jkeys kvs).Nodup →
    (∀ k jv, jlookup kvs k = some jv → k ∈ tracked →
      ∃ c w, dlookup obj k = some c ∧ stepValE c (j2v jv) = .ok w) →
    ∃ obj', setup_items defaultSetters tracked obj kvs = .ok obj' ∧
      ∀ n, dlookup obj' n = expectedAfter obj tracked kvs n := by
  intro kvs
  induction kvs using jObjInduction with
  | nil =>
      intro obj _ _
      exact ⟨obj, rfl, fun n => by simp [expectedAfter, jlookup]⟩
  | cons k v rest ih =>
      intro obj hnd hstep
      have hnotin : k ∉ jkeys rest := by
        simpa [jkeys] using (List.nodup_cons.mp (by simpa [jkeys] using hnd)).1
      have hndr : (jkeys rest).Nodup := (List.nodup_cons.mp (by simpa [jkeys] using hnd)).2
      by_cases htr : k ∈ tracked
      · obtain ⟨c, w, hc, hw⟩ := hstep k v (by simp [jlookup]) htr
        have hset : set_attr defaultSetters obj k (j2v v) = .ok (dset obj k w) := by
          rw [set_attr_default_spec obj k (j2v v) c hc, hw]; rfl
        have hstep' : ∀ k' jv', jlookup rest k' = some jv' → k' ∈ tracked →
            ∃ c' w', dlookup (dset obj k w) k' = some c' ∧
              stepValE c' (j2v jv') = .ok w' := by
          intro k' jv' hl htr'
          have hk' : k ≠ k' := by
            intro hkk
            subst hkk
            exact hnotin ((jlookup_isSome_iff rest k).mp (by simp [hl]))
          obtain ⟨c', w', hc', hw'⟩ := hstep k' jv' (by simp [jlookup, hk', hl]) htr'
          exact ⟨c', w', by rw [dlookup_dset, if_neg hk']; exact hc', hw'⟩
        obtain ⟨obj', hrun, hchar⟩ := ih (dset obj k w) hndr hstep'
        refine ⟨obj', ?_, ?_⟩
        · simp only [setup_items, if_pos htr, hset]
          exact hrun
        · intro n
          rw [hchar n]
          by_cases hkn : k = n
          · subst hkn
            have hlr : jlookup rest k = none := by
              cases hl : jlookup rest k with
              | none => rfl
              | some _ =>
                  exact absurd ((jlookup_isSome_iff rest k).mp (by simp [hl])) hnotin
            simp only [expectedAfter, jlookup, if_pos rfl, hlr, htr, if_pos, hc,
              dlookup_dset, if_pos rfl, hw]
            rfl
          · have hln : jlookup (.cons k v rest) n = jlookup rest n := by
              simp [jlookup, hkn]
            simp only [expectedAfter, hln, dlookup_dset, if_neg hkn]
      · obtain ⟨obj', hrun, hchar⟩ := ih obj hndr (by
          intro k' jv' hl htr'
          have hk' : k ≠ k' := by
            intro hkk
            subst hkk
            exact htr htr'
          exact hstep k' jv' (by simp [jlookup, hk', hl]) htr')
        refine ⟨obj', ?_, ?_⟩
        · simp only [setup_items, if_neg htr]
          exact hrun
        · intro n
          rw [hchar n]
          by_cases hkn : k = n
          · subst hkn
            have hlr : jlookup rest k = none := by
              cases hl : jlookup rest k with
              | none => rfl
              | some _ =>
                  exact absurd ((jlookup_isSome_iff rest k).mp (by simp [hl])) hnotin
            simp [expectedAfter, jlookup, hlr, htr]
          · have hln : jlookup (.cons k v rest) n = jlookup rest n := by
              simp [jlookup, hkn]
            simp only [expectedAfter, hln]

/-! ### Save-side lemmas -/

/-- The `_attrs_to_save` loop succeeds when every tracked name exists, maps
    each tracked name to the attribute's current value, keeps the
    accumulator's other bindings, and preserves distinctness of keys. -/
theorem attrs_to_save_loop_spec (obj : Obj) :
    ∀ (attrs : List String) (acc : ValueDict),
    (∀ n ∈ attrs, (dlookup obj n).isSome) →
    ∃ d, attrs_to_save_loop obj acc attrs = .ok d ∧
      (∀ n, dlookup d n = if n ∈ attrs then dlookup obj n else dlookup acc n) ∧
      ((dkeys acc).Nodup → (dkeys d).Nodup) := by
  intro attrs
  induction attrs with
  | nil =>
      intro acc _
      exact ⟨acc, rfl, fun n => by simp, id⟩
  | cons a rest ih =>
      intro acc hsome
      obtain ⟨v, hv⟩ := Option.isSome_iff_exists.mp (hsome a (by simp))
      obtain ⟨d, hrun, hchar, hnd⟩ :=
        ih (dset acc a v) (fun n hn => hsome n (by simp [hn]))
      refine ⟨d, ?_, ?_, ?_⟩
      · simp only [attrs_to_save_loop, hv]
        exact hrun
      · intro n
        rw [hchar n]
        by_cases hr : n ∈ rest
        · simp [hr]
        · by_cases ha : n = a
          · subst ha
            simp [hr, dlookup_dset, hv]
          · have ha' : ¬ a = n := fun h => ha h.symm
            simp [hr, ha, dlookup_dset, ha']
      · intro hacc
        exact hnd (nodup_dkeys_dset acc a v hacc)

/-- `encodeDict` succeeds when every value of a distinct-key dict encodes,
    and the result is the entrywise encoding: same keys in the same order,
    each value encoded. -/
theorem encodeDict_full (regs : List ConvEntry) (fuel : Nat) :
    ∀ (d : ValueDict),
    (dkeys d).Nodup →
    (∀ n v, dlookup d n = some v → ∃ jv, encodeValue regs fuel v = .ok jv) →
    ∃ jd, encodeDict regs fuel d = .ok jd ∧ jkeys jd = dkeys d ∧
      ∀ n v, dlookup d n = some v →
        ∃ jv, jlookup jd n = some jv ∧ encodeValue regs fuel v = .ok jv := by
  intro d
  induction d using valueDictInduction with
  | nil =>
      intro _ _
      exact ⟨.nil, by simp [encodeDict], by simp [jkeys, dkeys],
        fun n v h => by simp [dlookup] at h⟩
  | cons k v rest ih =>
      intro hnd henc
      have hnotin : k ∉ dkeys rest := (List.nodup_cons.mp (by simpa [dkeys] using hnd)).1
      have hndr : (dkeys rest).Nodup := (List.nodup_cons.mp (by simpa [dkeys] using hnd)).2
      obtain ⟨jv, hjv⟩ := henc k v (by simp [dlookup])
      have henc' : ∀ n' v', dlookup rest n' = some v' →
          ∃ jv', encodeValue regs fuel v' = .ok jv' := by
        intro n' v' hl
        have hk' : k ≠ n' := by
          intro hkk
          subst hkk
          exact hnotin ((dlookup_isSome_iff rest k).mp (by simp [hl]))
        exact henc n' v' (by simp [dlookup, hk', hl])
      obtain ⟨jd, hrun, hkeys, hchar⟩ := ih hndr henc'
      refine ⟨.cons k jv jd, ?_, ?_, ?_⟩
      · simp [encodeDict, hjv, hrun, Except.bind, Except.map]
      · simp [jkeys, dkeys, hkeys]
      · intro n v' hl
        by_cases hkn : k = n
        · subst hkn
          have hl' : v = v' := by simpa [dlookup] using hl
          subst hl'
          exact ⟨jv, by simp [jlookup], hjv⟩
        · simp only [dlookup, if_neg hkn] at hl
          obtain ⟨jv', hjl, hje⟩ := hchar n v' hl
          exact ⟨jv', by simp [jlookup, hkn, hjl], hje⟩

/-- A completed encode yields exactly the streamed text of the dump:
    `json.dump`'s chunked output agrees with the one-shot serialization. -/
theorem dumpEntries_of_ok (regs : List ConvEntry) (fuel : Nat) :
    ∀ (d : ValueDict) (jd : JObj) (b : Bool),
    encodeDict regs fuel d = .ok jd →
    dumpEntries regs fuel b d = (jsonObjInner b jd, none) := by
  intro d
  induction d using valueDictInduction with
  | nil =>
      intro jd b h
      simp only [encodeDict, Except.ok.injEq] at h
      subst h
      simp [dumpEntries, jsonObjInner]
  | cons k v rest ih =>
      intro jd b h
      simp only [encodeDict] at h
      cases hv : encodeValue regs fuel v with
      | error e => rw [hv] at h; simp [Except.bind] at h
      | ok j =>
          rw [hv] at h
          cases hr : encodeDict regs fuel rest with
          | error e => rw [hr] at h; simp [Except.bind, Except.map] at h
          | ok jd' =>
              rw [hr] at h
              simp only [Except.bind, Except.map, Except.ok.injEq] at h
              subst h
              simp [dumpEntries, hv, ih jd' false hr, jsonObjInner]

/-- An encode failure surfaces as the same error from the streamed dump. -/
theorem dumpEntries_of_error (regs : List ConvEntry) (fuel : Nat) :
    ∀ (d : ValueDict) (e : Err) (b : Bool),
    encodeDict regs fuel d = .error e →
    (dumpEntries regs fuel b d).2 = some e := by
  intro d
  induction d using valueDictInduction with
  | nil =>
      intro e b h
      simp [encodeDict] at h
  | cons k v rest ih =>
      intro e b h
      simp only [encodeDict] at h
      cases hv : encodeValue regs fuel v with
      | error e' =>
          rw [hv] at h
          simp only [Except.bind, Except.error.injEq] at h
          subst h
          simp [dumpEntries, hv]
      | ok j =>
          rw [hv] at h
          cases hr : encodeDict regs fuel rest with
          | error e' =>
              rw [hr] at h
              simp only [Except.bind, Except.map, Except.error.injEq] at h
              subst h
              simp [dumpEntries, hv, ih e' false hr]
          | ok jd' => rw [hr] at h; simp [Except.bind, Except.map] at h

/-! ### Small supporting lemmas for the claim theorems -/

/-- A filesystem in which every path exists and is fully accessible (used
    to instantiate theorems at concrete inputs). -/
def fsAllTrue : FS := ⟨fun _ => true, fun _ => true, fun _ => true⟩

/-- Successful validation returns its input path. -/
theorem validate_file_path_id (fs : FS) (p q : String)
    (h : validate_file_path fs p = .ok q) : q = p := by
  simp only [validate_file_path] at h
  split at h
  · split at h
    · simp at h
    · split at h
      · injection h with h
        exact h.symm
      · simp at h
  · split at h
    · injection h with h
      exact h.symm
    · simp at h

/-- Names that all exist pass `_define_attrs`'s loop. -/
theorem check_attrs_of_hasattr (obj : Obj) :
    ∀ (attrs : List String), (∀ a ∈ attrs, hasattr obj a = true) →
    check_attrs obj attrs = .ok () := by
  intro attrs
  induction attrs with
  | nil => intro _; rfl
  | cons a rest ih =>
      intro h
      simp only [check_attrs, h a (by simp), if_true]
      exact ih fun a' ha' => h a' (by simp [ha'])

/-- An assigned key is tracked and present in the file. -/
theorem jassigned_imp_mem (tracked : List String) :
    ∀ (kvs : JObj) (n : String), jassigned tracked kvs n = true →
    n ∈ tracked ∧ n ∈ jkeys kvs := by
  intro kvs
  induction kvs using jObjInduction with
  | nil => intro n h; simp [jassigned] at h
  | cons k v rest ih =>
      intro n h
      simp only [jassigned, Bool.or_eq_true, Bool.and_eq_true,
        decide_eq_true_eq] at h
      rcases h with ⟨rfl, htr⟩ | h
      · exact ⟨htr, by simp [jkeys]⟩
      · obtain ⟨h1, h2⟩ := ih n h
        exact ⟨h1, by simp [jkeys, h2]⟩

/-! ### C4 — the Path Validator's dispatch -/

/-- C4: for every candidate path, when neither the file nor its parent
    directory exists validation fails with `FileNotFoundError`; otherwise
    a missing read or write permission on the checked path (the file when
    it exists, its parent directory when not) fails with
    `PermissionError`; otherwise validation succeeds and returns the path
    unchanged.  The model is pure: validation creates nothing. -/
theorem validate_file_path_cases (fs : FS) (p : String) :
    (fs.pathExists p = false → fs.pathExists (parentDir p) = false →
      validate_file_path fs p =
        .error (.fileNotFoundError (parentDir p ++ " directory does not exist"))) ∧
    ((fs.pathExists p = true ∨ fs.pathExists (parentDir p) = true) →
      ¬(fs.readable (if fs.pathExists p then p else parentDir p) = true ∧
        fs.writable (if fs.pathExists p then p else parentDir p) = true) →
      validate_file_path fs p = .error (.permissionError
        ((if fs.pathExists p then p else parentDir p) ++ " is not readable or writable"))) ∧
    ((fs.pathExists p = true ∨ fs.pathExists (parentDir p) = true) →
      fs.readable (if fs.pathExists p then p else parentDir p) = true →
      fs.writable (if fs.pathExists p then p else parentDir p) = true →
      validate_file_path fs p = .ok p) := by
  refine ⟨?_, ?_, ?_⟩
  · intro h1 h2
    simp [validate_file_path, h1, h2]
  · intro hex hperm
    by_cases h1 : fs.pathExists p
    · rw [if_pos h1] at hperm ⊢
      simp only [validate_file_path, h1, not_true, Bool.true_eq_false]
      rw [if_neg (by simp), if_neg (by exact fun hc => hperm ⟨hc.1, hc.2⟩)]
    · rw [if_neg h1] at hperm ⊢
      have h2 : fs.pathExists (parentDir p) = true := by
        rcases hex with h | h
        · exact absurd h (by simpa using h1)
        · exact h
      simp only [validate_file_path, h1, h2, Bool.false_eq_true, not_false_iff,
        if_true, not_true]
      rw [if_neg (by simp), if_neg (by exact fun hc => hperm ⟨hc.1, hc.2⟩)]
  · intro hex hr hw
    by_cases h1 : fs.pathExists p
    · rw [if_pos h1] at hr hw
      simp only [validate_file_path, h1, not_true, Bool.true_eq_false]
      rw [if_neg (by simp), if_pos ⟨hr, hw⟩]
    · rw [if_neg h1] at hr hw
      have h2 : fs.pathExists (parentDir p) = true := by
        rcases hex with h | h
        · exact absurd h (by simpa using h1)
        · exact h
      simp only [validate_file_path, h1, h2, Bool.false_eq_true, not_false_iff,
        if_true, not_true]
      rw [if_neg (by simp), if_pos ⟨hr, hw⟩]

/-- Witness for C4: a concrete run through each of the three branches. -/
theorem validate_file_path_cases_witness :
    validate_file_path fsAllTrue "/d/f.json" = .ok "/d/f.json" ∧
    validate_file_path ⟨fun _ => false, fun _ => true, fun _ => true⟩ "/d/f.json" =
      .error (.fileNotFoundError "/d directory does not exist") ∧
    validate_file_path ⟨fun _ => true, fun _ => false, fun _ => true⟩ "/d/f.json" =
      .error (.permissionError "/d/f.json is not readable or writable") := by
  refine ⟨?_, ?_, ?_⟩
  · exact (validate_file_path_cases fsAllTrue "/d/f.json").2.2 (Or.inl rfl)
      (by decide) (by decide)
  · have := (validate_file_path_cases ⟨fun _ => false, fun _ => true, fun _ => true⟩
      "/d/f.json").1 rfl rfl
    rw [show parentDir "/d/f.json" = "/d" from rfl] at this
    exact this
  · have := (validate_file_path_cases ⟨fun _ => true, fun _ => false, fun _ => true⟩
      "/d/f.json").2.1 (Or.inl rfl) (by decide)
    simpa using this

/-! ### C6 — the Conversion Registry's dispatch -/

/-- C6: `convert_attr` tries the registered (category, transform) pairs in
    registration order and applies the transform of the first category the
    value matches; when no category matches it raises the `TypeError`
    naming the offending value's type. -/
theorem convert_attr_cases (regs : List ConvEntry) (v : Value) :
    (convert_attr regs v =
      match regs.find? (fun e => e.cat v) with
      | some e => .ok (e.fn v)
      | none => .error (.typeError (typeName v ++
          " is not a json serializable type by default and with provided converters"))) ∧
    (∀ pre e post, regs = pre ++ e :: post →
      (∀ e' ∈ pre, e'.cat v = false) → e.cat v = true →
      convert_attr regs v = .ok (e.fn v)) ∧
    ((∀ e ∈ regs, e.cat v = false) →
      convert_attr regs v = .error (.typeError (typeName v ++
        " is not a json serializable type by default and with provided converters"))) := by
  refine ⟨convert_attr_eq_find regs v, ?_, ?_⟩
  · intro pre e post hregs hpre he
    subst hregs
    rw [convert_attr_eq_find]
    rw [List.find?_append,
      List.find?_eq_none.mpr (fun x hx => by simp [hpre x hx]),
      Option.none_or]
    simp [List.find?_cons, he]
  · intro hnone
    rw [convert_attr_eq_find,
      List.find?_eq_none.mpr (fun x hx => by simp [hnone x hx])]

/-- Witness for C6: the default registry converts a path and rejects a
    non-path object, naming its type. -/
theorem convert_attr_cases_witness :
    convert_attr (defaultConverters "/cwd") (.path "x") = .ok (.str "/cwd/x") ∧
    convert_attr (defaultConverters "/cwd") (.other "<class 'object'>") =
      .error (.typeError
        "<class 'object'> is not a json serializable type by default and with provided converters") := by
  constructor
  · have := (convert_attr_cases (defaultConverters "/cwd") (.path "x")).2.1
      [] ⟨isPathLike, fun v => .str (resolvePath "/cwd" (pathStr v))⟩ []
      rfl (by intro e' he'; simp at he') rfl
    simpa [resolvePath, isAbsolute, pathStr] using this
  · have := (convert_attr_cases (defaultConverters "/cwd")
      (.other "<class 'object'>")).2.2
      (by intro e he; simp [defaultConverters] at he; simp [he, isPathLike])
    simpa [typeName] using this

/-! ### C3 — the Restoration Registry's dispatch -/

/-- C3: `set_attr` dispatches on the type of the value currently held at
    the attribute (not on the raw value's type): the first registered
    category matching the current value runs its setter, and when none
    matches — in particular when the current value is `None` under the
    default registry — the raw value is assigned directly. -/
theorem set_attr_cases (regs : List SetEntry) (obj : Obj) (name : String)
    (value cur : Value) (h : dlookup obj name = some cur) :
    (set_attr regs obj name value =
      match regs.find? (fun e => e.cat cur) with
      | some e => e.fn obj name value
      | none => .ok (dset obj name value)) ∧
    (∀ pre e post, regs = pre ++ e :: post →
      (∀ e' ∈ pre, e'.cat cur = false) → e.cat cur = true →
      set_attr regs obj name value = e.fn obj name value) ∧
    ((∀ e ∈ regs, e.cat cur = false) →
      set_attr regs obj name value = .ok (dset obj name value)) ∧
    (cur = .null → set_attr defaultSetters obj name value =
      .ok (dset obj name value)) := by
  refine ⟨set_attr_eq_find regs obj name value cur h, ?_, ?_, ?_⟩
  · intro pre e post hregs hpre he
    subst hregs
    rw [set_attr_eq_find _ obj name value cur h]
    rw [List.find?_append,
      List.find?_eq_none.mpr (fun x hx => by simp [hpre x hx]),
      Option.none_or]
    simp [List.find?_cons, he]
  · intro hnone
    rw [set_attr_eq_find _ obj name value cur h,
      List.find?_eq_none.mpr (fun x hx => by simp [hnone x hx])]
  · intro hnull
    subst hnull
    rw [set_attr_eq_find _ obj name value _ h]
    rw [List.find?_eq_none.mpr (fun x hx => by
      simp only [defaultSetters, List.mem_singleton] at hx
      simp [hx, isPathLike])]

/-- Witness for C3: with a path-like current value the registered setter
    rebuilds a `Path` from the decoded string; with a `None` current value
    the raw value is assigned unchanged. -/
theorem set_attr_cases_witness :
    set_attr defaultSetters (.cons "a" (.path "x") .nil) "a" (.str "/p") =
      .ok (.cons "a" (.path "/p") .nil) ∧
    set_attr defaultSetters (.cons "a" .null .nil) "a" (.str "/p") =
      .ok (.cons "a" (.str "/p") .nil) := by
  constructor
  · have := (set_attr_cases defaultSetters (.cons "a" (.path "x") .nil) "a"
      (.str "/p") (.path "x") (by simp [dlookup])).2.1
      [] ⟨isPathLike, fun obj name p => (pathCtor p).map (dset obj name)⟩ []
      rfl (by intro e' he'; simp at he') rfl
    simpa [pathCtor, Except.map, dset] using this
  · have := (set_attr_cases defaultSetters (.cons "a" .null .nil) "a"
      (.str "/p") .null (by simp [dlookup])).2.2.2 rfl
    simpa [dset] using this

/-! ### C5 — what `setup` may touch -/

/-- C5: a `setup` run modifies only attributes whose name is both tracked
    and a key of the loaded file; a missing backing file is a no-op, file
    keys outside the tracked set are ignored, and tracked names absent
    from the file keep their in-memory value. -/
theorem setup_frame (tracked : List String) (kvs : JObj) (obj obj' : Obj) :
    (setup defaultSetters tracked none obj = .ok obj) ∧
    (setup defaultSetters tracked (some (.obj kvs)) obj = .ok obj' →
      ∀ n, ¬(n ∈ tracked ∧ n ∈ jkeys kvs) → dlookup obj' n = dlookup obj n) := by
  constructor
  · rfl
  · intro h n hn
    have hj : jassigned tracked kvs n = false := by
      cases hj : jassigned tracked kvs n
      · rfl
      · exact absurd (jassigned_imp_mem tracked kvs n hj) hn
    exact setup_items_frame tracked kvs obj obj' h n hj

/-- Witness for C5: a file with one tracked key, one untracked key, and a
    tracked name missing from the file; only the tracked present key moves. -/
theorem setup_frame_witness :
    setup defaultSetters ["a", "b"]
      (some (.obj (.cons "a" (.str "v") (.cons "zz" (.str "w") .nil))))
      (.cons "a" (.str "old") (.cons "b" (.int 7) (.cons "c" (.bool true) .nil))) =
      .ok (.cons "a" (.str "v") (.cons "b" (.int 7) (.cons "c" (.bool true) .nil))) ∧
    dlookup (.cons "a" (.str "v") (.cons "b" (.int 7) (.cons "c" (.bool true) .nil))) "b" =
      dlookup (.cons "a" (.str "old") (.cons "b" (.int 7) (.cons "c" (.bool true) .nil))) "b" ∧
    dlookup (.cons "a" (.str "v") (.cons "b" (.int 7) (.cons "c" (.bool true) .nil))) "c" =
      dlookup (.cons "a" (.str "old") (.cons "b" (.int 7) (.cons "c" (.bool true) .nil))) "c" := by
  refine ⟨rfl, ?_, ?_⟩
  · exact (setup_frame ["a", "b"]
      (.cons "a" (.str "v") (.cons "zz" (.str "w") .nil))
      (.cons "a" (.str "old") (.cons "b" (.int 7) (.cons "c" (.bool true) .nil)))
      (.cons "a" (.str "v") (.cons "b" (.int 7) (.cons "c" (.bool true) .nil)))).2
      rfl "b" (by decide)
  · exact (setup_frame ["a", "b"]
      (.cons "a" (.str "v") (.cons "zz" (.str "w") .nil))
      (.cons "a" (.str "old") (.cons "b" (.int 7) (.cons "c" (.bool true) .nil)))
      (.cons "a" (.str "v") (.cons "b" (.int 7) (.cons "c" (.bool true) .nil)))).2
      rfl "c" (by decide)

/-! ### C8 — idempotence of `setup` -/

/-- C8: running `setup` twice with the backing file unchanged leaves every
    attribute with the same final value as running it once (under the
    program's default `setters` registry). -/
theorem setup_idempotent (tracked : List String) (file : Option JValue)
    (obj obj' : Obj)
    (h : setup defaultSetters tracked file obj = .ok obj') :
    ∃ obj'', setup defaultSetters tracked file obj' = .ok obj'' ∧
      ∀ n, dlookup obj'' n = dlookup obj' n := by
  cases file with
  | none =>
      simp only [setup, Except.ok.injEq] at h
      subst h
      exact ⟨_, rfl, fun n => rfl⟩
  | some saved =>
      cases saved with
      | obj kvs =>
          simp only [setup] at h ⊢
          have hkind := setup_items_kind tracked kvs obj obj' h
          obtain ⟨obj'', hrun, hchar⟩ :=
            setup_items_replay tracked kvs obj obj' obj' h hkind
          refine ⟨obj'', hrun, fun n => ?_⟩
          rw [hchar n, ite_self]
      | str s => simp [setup] at h
      | int n => simp [setup] at h
      | bool b => simp [setup] at h
      | null => simp [setup] at h
      | arr xs => simp [setup] at h

/-- Witness for C8: a second run over a file that rebuilds a path value
    reproduces the first run's state. -/
theorem setup_idempotent_witness :
    setup defaultSetters ["a", "b"]
      (some (.obj (.cons "a" (.str "/p") (.cons "b" (.int 3) .nil))))
      (.cons "a" (.path "x") (.cons "b" (.int 0) .nil)) =
      .ok (.cons "a" (.path "/p") (.cons "b" (.int 3) .nil)) ∧
    ∃ obj'', setup defaultSetters ["a", "b"]
      (some (.obj (.cons "a" (.str "/p") (.cons "b" (.int 3) .nil))))
      (.cons "a" (.path "/p") (.cons "b" (.int 3) .nil)) = .ok obj'' ∧
      ∀ n, dlookup obj'' n =
        dlookup (.cons "a" (.path "/p") (.cons "b" (.int 3) .nil)) n := by
  refine ⟨rfl, setup_idempotent ["a", "b"]
    (some (.obj (.cons "a" (.str "/p") (.cons "b" (.int 3) .nil))))
    (.cons "a" (.path "x") (.cons "b" (.int 0) .nil))
    (.cons "a" (.path "/p") (.cons "b" (.int 3) .nil)) rfl⟩

/-- Equality of `Except` results is decidable (used to evaluate concrete
    runs in witnesses). -/
instance {ε α : Type} [DecidableEq ε] [DecidableEq α] : DecidableEq (Except ε α) :=
  fun x y =>
    match x, y with
    | .ok a, .ok b =>
        if h : a = b then isTrue (by rw [h]) else isFalse (by simp [h])
    | .error a, .error b =>
        if h : a = b then isTrue (by rw [h]) else isFalse (by simp [h])
    | .ok _, .error _ => isFalse (by simp)
    | .error _, .ok _ => isFalse (by simp)

/-! ### C9 — what the default file location is bound to -/

/-- C9 counterexample: the module's default `file` argument is the
    expression `Path.cwd() / 'preferences.json'` of a `def` statement, so
    Python evaluates it once, at import.  In a process that imports the
    module with working directory `/a` and then changes directory to `/b`,
    a keeper constructed with no file argument stores
    `/a/preferences.json` — not `preferences.json` under the
    construction-time working directory `/b`, as the claim states. -/
theorem keeperInit_default_importtime_cx :
    keeperInit fsAllTrue .nil [] none (pyImportDefault ⟨"/a"⟩) =
      .ok ("/a/preferences.json", []) ∧
    (chdir ⟨"/a"⟩ "/b").cwd ++ "/preferences.json" ≠ "/a/preferences.json" := by
  exact ⟨by decide, by decide⟩

/-- C9 amended: a keeper constructed with no file location uses
    `preferences.json` under the working directory at module import
    (default-argument evaluation) time; the working directory at
    construction time plays no role. -/
theorem keeperInit_default_importtime (s : Proc) (fs : FS) (obj : Obj)
    (attrs : List String) (f : String)
    (hval : validate_file_path fs (pyImportDefault s) = .ok f)
    (hattrs : ∀ a ∈ attrs, hasattr obj a = true) :
    keeperInit fs obj attrs none (pyImportDefault s) =
      .ok (s.cwd ++ "/preferences.json", attrs) := by
  have hf : f = pyImportDefault s := validate_file_path_id fs _ f hval
  subst hf
  simp only [keeperInit, Option.getD]
  rw [hval]
  simp only [Except.bind, define_attrs,
    check_attrs_of_hasattr obj attrs hattrs, Except.map, pyImportDefault]

/-- Witness for the amended C9. -/
theorem keeperInit_default_importtime_witness :
    keeperInit fsAllTrue (.cons "a" (.str "x") .nil) ["a"] none
      (pyImportDefault ⟨"/a"⟩) = .ok ("/a/preferences.json", ["a"]) := by
  have := keeperInit_default_importtime ⟨"/a"⟩ fsAllTrue
    (.cons "a" (.str "x") .nil) ["a"] "/a/preferences.json"
    (by decide) (by decide)
  simpa using this

/-! ### C10 — duplicate names in the tracked list -/

/-- Every value in a dict that encoded successfully encodes on its own. -/
theorem encodeDict_ok_entries (regs : List ConvEntry) (fuel : Nat) :
    ∀ (d : ValueDict) (jd : JObj), encodeDict regs fuel d = .ok jd →
    ∀ n v, dlookup d n = some v → ∃ jv, encodeValue regs fuel v = .ok jv := by
  intro d
  induction d using valueDictInduction with
  | nil =>
      intro jd _ n v hl
      simp [dlookup] at hl
  | cons k v rest ih =>
      intro jd h n v' hl
      simp only [encodeDict] at h
      cases hv : encodeValue regs fuel v with
      | error e => rw [hv] at h; simp [Except.bind] at h
      | ok j =>
          rw [hv] at h
          cases hr : encodeDict regs fuel rest with
          | error e => rw [hr] at h; simp [Except.bind, Except.map] at h
          | ok jd' =>
              by_cases hkn : k = n
              · subst hkn
                have : v = v' := by simpa [dlookup] using hl
                subst this
                exact ⟨j, hv⟩
              · simp only [dlookup, if_neg hkn] at hl
                exact ih jd' hr n v' hl

/-- C10: construction succeeds with a duplicated tracked name (every
    occurrence is checked independently), and a successful save writes a
    JSON object in which the name appears as a key exactly once, bound to
    the encoding of the attribute's single current value. -/
theorem keeper_duplicate_names (fs : FS) (obj : Obj) (attrs : List String)
    (fileArg : Option String) (defaultArg f : String) (n : String)
    (regs : List ConvEntry) (fuel : Nat) (jd : JObj)
    (hval : validate_file_path fs (fileArg.getD defaultArg) = .ok f)
    (hattrs : ∀ a ∈ attrs, hasattr obj a = true)
    (hn : n ∈ attrs)
    (hsave : saveJSON regs fuel obj attrs = .ok (.obj jd)) :
    keeperInit fs obj attrs fileArg defaultArg = .ok (f, attrs) ∧
    (jkeys jd).count n = 1 ∧
    ∃ v jv, dlookup obj n = some v ∧ jlookup jd n = some jv ∧
      encodeValue regs fuel v = .ok jv := by
  have hsome : ∀ a ∈ attrs, (dlookup obj a).isSome := fun a ha => hattrs a ha
  obtain ⟨d, hd, hdchar, hdnd⟩ := attrs_to_save_loop_spec obj attrs .nil hsome
  have hsave' : encodeValue regs fuel (.dict d) = .ok (.obj jd) := by
    simp only [saveJSON, attrs_to_save, hd, Except.bind] at hsave
    exact hsave
  have hed : encodeDict regs fuel d = .ok jd := by
    simp only [encodeValue] at hsave'
    cases he : encodeDict regs fuel d with
    | error e => rw [he] at hsave'; simp [Except.map] at hsave'
    | ok jd' =>
        rw [he] at hsave'
        simp only [Except.map, Except.ok.injEq, JValue.obj.injEq] at hsave'
        rw [hsave']
  have hnd : (dkeys d).Nodup := hdnd (by simp [dkeys])
  have hdn : dlookup d n = dlookup obj n := by rw [hdchar n, if_pos hn]
  obtain ⟨v, hv⟩ := Option.isSome_iff_exists.mp (hsome n hn)
  obtain ⟨jd', hjd', hkeys, hchar⟩ := encodeDict_full regs fuel d hnd
    (encodeDict_ok_entries regs fuel d jd hed)
  have hjd : jd' = jd := by
    rw [hjd'] at hed
    injection hed
  subst hjd
  refine ⟨?_, ?_, ?_⟩
  · simp only [keeperInit]
    rw [hval]
    simp only [Except.bind, define_attrs,
      check_attrs_of_hasattr obj attrs hattrs, Except.map]
  · rw [hkeys]
    exact List.count_eq_one_of_mem hnd
      ((dlookup_isSome_iff d n).mp (by simp [hdn, hv]))
  · obtain ⟨jv, hjl, hje⟩ := hchar n v (by rw [hdn, hv])
    exact ⟨v, jv, hv, hjl, hje⟩

/-- Witness for C10: the name `a` tracked twice. -/
theorem keeper_duplicate_names_witness :
    keeperInit fsAllTrue (.cons "a" (.str "x") .nil) ["a", "a"] none "/f" =
      .ok ("/f", ["a", "a"]) ∧
    (jkeys (.cons "a" (.str "x") .nil)).count "a" = 1 ∧
    ∃ v jv, dlookup (.cons "a" (.str "x") .nil) "a" = some v ∧
      jlookup (JObj.cons "a" (.str "x") .nil) "a" = some jv ∧
      encodeValue (defaultConverters "/c") 0 v = .ok jv := by
  exact keeper_duplicate_names fsAllTrue (.cons "a" (.str "x") .nil) ["a", "a"]
    none "/f" "/f" "a" (defaultConverters "/c") 0 (.cons "a" (.str "x") .nil)
    (by decide) (by decide) (by decide)
    (by simp [saveJSON, attrs_to_save, attrs_to_save_loop, dlookup, dset,
      encodeValue, encodeDict, Except.bind, Except.map])

/-! ### C2 — the file across a failing `save` -/

/-- C2 counterexample: `save()` calls `touch()` and opens the file in
    truncating write mode before any value is converted, and `json.dump`
    streams chunks as it encodes; a `save()` that fails on an
    unsupported value (here the sole tracked attribute holds a plain
    `object`) leaves the file holding the partial prefix `'\x7b"a": '` —
    not the prior content `'\x7b"a": 1\x7d'`, which the claim says is kept. -/
theorem save_partial_write_cx :
    fullSave (defaultConverters "/cwd") 4 ["a"]
        (.cons "a" (.other "<class 'object'>") .nil) (some "\x7b\"a\": 1\x7d") =
      (some "\x7b\"a\": ", some (.typeError
        "<class 'object'> is not a json serializable type by default and with provided converters")) ∧
    (some "\x7b\"a\": " : Option String) ≠ some "\x7b\"a\": 1\x7d" := by
  constructor
  · simp [fullSave, attrs_to_save, attrs_to_save_loop, dlookup, dset, dumpText,
      dumpEntries, encodeValue, convert_attr, defaultConverters, isPathLike,
      typeName, escapeJ, escapeChars]
  · decide

/-- C2 amended: the file's content after `save()` never depends on its
    prior content.  A successful `save()` leaves the complete serialized
    JSON object; a failing `save()` surfaces the conversion error and
    leaves the truncated file holding only the partial prefix streamed
    before the failure. -/
theorem save_file_state (regs : List ConvEntry) (fuel : Nat)
    (attrs : List String) (obj : Obj) (prior prior' : Option String) :
    ((fullSave regs fuel attrs obj prior).1 =
      (fullSave regs fuel attrs obj prior').1) ∧
    (∀ j, saveJSON regs fuel obj attrs = .ok j →
      fullSave regs fuel attrs obj prior = (some (jsonText j), none)) ∧
    (∀ e, saveJSON regs fuel obj attrs = .error e →
      (fullSave regs fuel attrs obj prior).2 = some e) := by
  refine ⟨rfl, ?_, ?_⟩
  · intro j hj
    simp only [saveJSON] at hj
    cases hats : attrs_to_save obj attrs with
    | error e => rw [hats] at hj; simp [Except.bind] at hj
    | ok d =>
        rw [hats] at hj
        simp only [Except.bind] at hj
        simp only [encodeValue] at hj
        cases hed : encodeDict regs fuel d with
        | error e => rw [hed] at hj; simp [Except.map] at hj
        | ok jd =>
            rw [hed] at hj
            simp only [Except.map, Except.ok.injEq] at hj
            subst hj
            simp only [fullSave, hats, dumpText,
              dumpEntries_of_ok regs fuel d jd true hed]
            simp [jsonText]
  · intro e he
    simp only [saveJSON] at he
    cases hats : attrs_to_save obj attrs with
    | error e' =>
        rw [hats] at he
        simp only [Except.bind, Except.error.injEq] at he
        subst he
        simp [fullSave, hats]
    | ok d =>
        rw [hats] at he
        simp only [Except.bind] at he
        simp only [encodeValue] at he
        cases hed : encodeDict regs fuel d with
        | error e' =>
            rw [hed] at he
            simp only [Except.map, Except.error.injEq] at he
            subst he
            have hdump := dumpEntries_of_error regs fuel d e' true hed
            simp [fullSave, hats, dumpText, hdump]
        | ok jd => rw [hed] at he; simp [Except.map] at he

/-- Witness for the amended C2: a failing save surfaces its error, and a
    successful save writes the complete JSON text. -/
theorem save_file_state_witness :
    (fullSave (defaultConverters "/cwd") 4 ["a"]
      (.cons "a" (.other "<class 'object'>") .nil) (some "old")).2 =
      some (.typeError
        "<class 'object'> is not a json serializable type by default and with provided converters") ∧
    fullSave (defaultConverters "/cwd") 4 ["b"] (.cons "b" (.bool true) .nil)
      (some "old") = (some "\x7b\"b\": true\x7d", none) := by
  constructor
  · exact (save_file_state (defaultConverters "/cwd") 4 ["a"]
      (.cons "a" (.other "<class 'object'>") .nil) (some "old") none).2.2 _
      (by simp [saveJSON, attrs_to_save, attrs_to_save_loop, dlookup, dset,
        encodeValue, encodeDict, convert_attr, defaultConverters, isPathLike,
        typeName, Except.bind, Except.map])
  · have := (save_file_state (defaultConverters "/cwd") 4 ["b"]
      (.cons "b" (.bool true) .nil) (some "old") none).2.1
      (.obj (.cons "b" (.bool true) .nil))
      (by simp [saveJSON, attrs_to_save, attrs_to_save_loop, dlookup, dset,
        encodeValue, encodeDict, Except.bind, Except.map])
    simpa [jsonText, jsonObjInner, escapeJ, escapeChars] using this

/-! ### C1 — round trip for JSON-native values -/

/-- With the default registry and positive fuel, a path value encodes as
    its resolved absolute-path string. -/
theorem encodeValue_path (cwd : String) (fuel : Nat) (p : String)
    (h : 1 ≤ fuel) :
    encodeValue (defaultConverters cwd) fuel (.path p) =
      .ok (.str (resolvePath cwd p)) := by
  cases fuel with
  | zero => omega
  | succ fuel' =>
      simp [encodeValue, convert_attr, defaultConverters, isPathLike, pathStr]

/-- C1 counterexample: a keeper tracking `a`, whose value is the native
    string `"hello"`, saves `\x7b"a": "hello"\x7d`; mutating `a` to the
    path-like value `Path('x')` and running `setup()` makes the dispatch
    (keyed on the *current* value's type) run the path setter, which
    stores `Path('hello')` — not the saved string `"hello"`.  The claim's
    universal round trip fails at this input. -/
theorem roundtrip_native_cx :
    saveJSON (defaultConverters "/cwd") 4 (.cons "a" (.str "hello") .nil) ["a"] =
      .ok (.obj (.cons "a" (.str "hello") .nil)) ∧
    setup defaultSetters ["a"] (some (.obj (.cons "a" (.str "hello") .nil)))
      (.cons "a" (.path "x") .nil) = .ok (.cons "a" (.path "hello") .nil) ∧
    Value.path "hello" ≠ Value.str "hello" := by
  refine ⟨?_, rfl, by decide⟩
  simp [saveJSON, attrs_to_save, attrs_to_save_loop, dlookup, dset, encodeValue,
    encodeDict, Except.bind, Except.map]

/-- C1 amended: for tracked attributes holding JSON-native values,
    `save()` followed by mutation followed by `setup()` restores exactly
    the saved values, provided the mutated values match no restoration
    category — under the default registry, provided no mutated value is
    path-like.  Untracked attributes are untouched. -/
theorem roundtrip_native (cwd : String) (fuel : Nat) (attrs : List String)
    (obj obj₂ : Obj)
    (h1 : ∀ n ∈ attrs, ∃ v j, dlookup obj n = some v ∧ v2j v = some j)
    (h2 : ∀ n ∈ attrs, ∃ c, dlookup obj₂ n = some c ∧ isPathLike c = false) :
    ∃ file obj₃,
      saveJSON (defaultConverters cwd) fuel obj attrs = .ok file ∧
      setup defaultSetters attrs (some file) obj₂ = .ok obj₃ ∧
      (∀ n ∈ attrs, dlookup obj₃ n = dlookup obj n) ∧
      (∀ n, n ∉ attrs → dlookup obj₃ n = dlookup obj₂ n) := by
  have hsome : ∀ a ∈ attrs, (dlookup obj a).isSome := by
    intro a ha
    obtain ⟨v, j, hv, _⟩ := h1 a ha
    simp [hv]
  obtain ⟨d, hd, hdchar, hdnd⟩ := attrs_to_save_loop_spec obj attrs .nil hsome
  have hnd : (dkeys d).Nodup := hdnd (by simp [dkeys])
  have hencall : ∀ n v, dlookup d n = some v →
      ∃ jv, encodeValue (defaultConverters cwd) fuel v = .ok jv := by
    intro n v hl
    by_cases hn : n ∈ attrs
    · obtain ⟨v', j, hv', hj⟩ := h1 n hn
      rw [hdchar n, if_pos hn, hv'] at hl
      injection hl with hl
      subst hl
      exact ⟨j, encodeValue_native _ fuel v' j hj⟩
    · rw [hdchar n, if_neg hn] at hl
      simp [dlookup] at hl
  obtain ⟨jd, hjd, hkeys, hchar⟩ :=
    encodeDict_full (defaultConverters cwd) fuel d hnd hencall
  have hsavej : saveJSON (defaultConverters cwd) fuel obj attrs = .ok (.obj jd) := by
    simp [saveJSON, attrs_to_save, hd, Except.bind, encodeValue, hjd, Except.map]
  have hkeysnd : (jkeys jd).Nodup := by rw [hkeys]; exact hnd
  have hstep : ∀ k jv, jlookup jd k = some jv → k ∈ attrs →
      ∃ c w, dlookup obj₂ k = some c ∧ stepValE c (j2v jv) = .ok w := by
    intro k jv _ hk
    obtain ⟨c, hc, hcpl⟩ := h2 k hk
    exact ⟨c, j2v jv, hc, by simp [stepValE, hcpl]⟩
  obtain ⟨obj₃, hrun, hchar₃⟩ := setup_items_nodup_run attrs jd obj₂ hkeysnd hstep
  refine ⟨.obj jd, obj₃, hsavej, hrun, ?_, ?_⟩
  · intro n hn
    obtain ⟨v, j, hv, hj⟩ := h1 n hn
    have hdl : dlookup d n = some v := by rw [hdchar n, if_pos hn, hv]
    obtain ⟨jv, hjl, hje⟩ := hchar n v hdl
    have hjv : jv = j := by
      have h' := encodeValue_native (defaultConverters cwd) fuel v j hj
      rw [hje] at h'
      injection h' with h'
    obtain ⟨c, hc, hcpl⟩ := h2 n hn
    rw [hchar₃ n]
    simp only [expectedAfter, hjl, if_pos hn, hc]
    rw [hjv] at hje ⊢
    simp only [stepValE, hcpl, Bool.false_eq_true, if_false, Except.toOption]
    rw [hv, j2v_v2j v j hj]
  · intro n hn
    rw [hchar₃ n]
    have hjl : jlookup jd n = none := by
      cases hl : jlookup jd n with
      | none => rfl
      | some _ =>
          have hmem : n ∈ jkeys jd := (jlookup_isSome_iff jd n).mp (by simp [hl])
          rw [hkeys] at hmem
          have hsm : (dlookup d n).isSome := (dlookup_isSome_iff d n).mpr hmem
          rw [hdchar n, if_neg hn] at hsm
          simp [dlookup] at hsm
    simp [expectedAfter, hjl]

/-- Witness for the amended C1. -/
theorem roundtrip_native_witness :
    ∃ file obj₃,
      saveJSON (defaultConverters "/c") 1 (.cons "a" (.str "hi") .nil) ["a"] =
        .ok file ∧
      setup defaultSetters ["a"] (some file) (.cons "a" (.int 5) .nil) =
        .ok obj₃ ∧
      (∀ n ∈ ["a"], dlookup obj₃ n = dlookup (.cons "a" (.str "hi") .nil) n) ∧
      (∀ n, n ∉ ["a"] → dlookup obj₃ n = dlookup (.cons "a" (.int 5) .nil) n) :=
  roundtrip_native "/c" 1 ["a"] (.cons "a" (.str "hi") .nil)
    (.cons "a" (.int 5) .nil)
    (by
      intro n hn
      simp only [List.mem_singleton] at hn
      subst hn
      exact ⟨.str "hi", .str "hi", by decide, rfl⟩)
    (by
      intro n hn
      simp only [List.mem_singleton] at hn
      subst hn
      exact ⟨.int 5, by decide, rfl⟩)

/-! ### C7 — round trip through the path converter -/

/-- C7 counterexample: with working directory `/cwd`, a keeper tracking
    `a` whose value is the relative path `Path('x')` saves the converted
    string `"/cwd/x"` (the converter takes `str(Path(p).resolve())`);
    after mutating `a` to another path and running `setup()`, the
    attribute holds `Path('/cwd/x')` — the resolved form, not the value
    `Path('x')` present at the time of `save()`, contradicting the
    claim's exact restoration. -/
theorem roundtrip_path_cx :
    saveJSON (defaultConverters "/cwd") 4 (.cons "a" (.path "x") .nil) ["a"] =
      .ok (.obj (.cons "a" (.str "/cwd/x") .nil)) ∧
    setup defaultSetters ["a"] (some (.obj (.cons "a" (.str "/cwd/x") .nil)))
      (.cons "a" (.path "y") .nil) = .ok (.cons "a" (.path "/cwd/x") .nil) ∧
    Value.path "/cwd/x" ≠ Value.path "x" := by
  refine ⟨?_, rfl, by decide⟩
  simp [saveJSON, attrs_to_save, attrs_to_save_loop, dlookup, dset, encodeValue,
    encodeDict, convert_attr, defaultConverters, isPathLike, pathStr,
    resolvePath, isAbsolute, Except.bind, Except.map]

/-- C7 amended: with the default converter and setter registries, for
    tracked attributes holding path values, `save()` followed by mutation
    followed by `setup()` stores `Path(str(original.resolve()))` at each
    attribute, provided the mutated values are still path-like; the
    restoration is exact precisely when each original path is already in
    resolved (absolute) form. -/
theorem roundtrip_path (cwd : String) (fuel : Nat) (attrs : List String)
    (obj obj₂ : Obj)
    (hfuel : 1 ≤ fuel)
    (h1 : ∀ n ∈ attrs, ∃ p, dlookup obj n = some (.path p))
    (h2 : ∀ n ∈ attrs, ∃ c, dlookup obj₂ n = some c ∧ isPathLike c = true) :
    ∃ file obj₃,
      saveJSON (defaultConverters cwd) fuel obj attrs = .ok file ∧
      setup defaultSetters attrs (some file) obj₂ = .ok obj₃ ∧
      (∀ n p, n ∈ attrs → dlookup obj n = some (.path p) →
        dlookup obj₃ n = some (.path (resolvePath cwd p))) ∧
      (∀ n, n ∉ attrs → dlookup obj₃ n = dlookup obj₂ n) ∧
      ((∀ n p, n ∈ attrs → dlookup obj n = some (.path p) →
          resolvePath cwd p = p) →
        ∀ n ∈ attrs, dlookup obj₃ n = dlookup obj n) := by
  have hsome : ∀ a ∈ attrs, (dlookup obj a).isSome := by
    intro a ha
    obtain ⟨p, hp⟩ := h1 a ha
    simp [hp]
  obtain ⟨d, hd, hdchar, hdnd⟩ := attrs_to_save_loop_spec obj attrs .nil hsome
  have hnd : (dkeys d).Nodup := hdnd (by simp [dkeys])
  have hencall : ∀ n v, dlookup d n = some v →
      ∃ jv, encodeValue (defaultConverters cwd) fuel v = .ok jv := by
    intro n v hl
    by_cases hn : n ∈ attrs
    · obtain ⟨p, hp⟩ := h1 n hn
      rw [hdchar n, if_pos hn, hp] at hl
      injection hl with hl
      subst hl
      exact ⟨.str (resolvePath cwd p), encodeValue_path cwd fuel p hfuel⟩
    · rw [hdchar n, if_neg hn] at hl
      simp [dlookup] at hl
  obtain ⟨jd, hjd, hkeys, hchar⟩ :=
    encodeDict_full (defaultConverters cwd) fuel d hnd hencall
  have hsavej : saveJSON (defaultConverters cwd) fuel obj attrs = .ok (.obj jd) := by
    simp [saveJSON, attrs_to_save, hd, Except.bind, encodeValue, hjd, Except.map]
  have hkeysnd : (jkeys jd).Nodup := by rw [hkeys]; exact hnd
  -- every tracked file entry is the resolved-string encoding of the
  -- original path
  have hentry : ∀ n, n ∈ attrs → ∀ p, dlookup obj n = some (.path p) →
      jlookup jd n = some (.str (resolvePath cwd p)) := by
    intro n hn p hp
    have hdl : dlookup d n = some (.path p) := by rw [hdchar n, if_pos hn, hp]
    obtain ⟨jv, hjl, hje⟩ := hchar n (.path p) hdl
    have h' := encodeValue_path cwd fuel p hfuel
    rw [hje] at h'
    injection h' with h'
    rw [h'] at hjl
    exact hjl
  have hstep : ∀ k jv, jlookup jd k = some jv → k ∈ attrs →
      ∃ c w, dlookup obj₂ k = some c ∧ stepValE c (j2v jv) = .ok w := by
    intro k jv hjl hk
    obtain ⟨c, hc, hcpl⟩ := h2 k hk
    obtain ⟨p, hp⟩ := h1 k hk
    have := hentry k hk p hp
    rw [hjl] at this
    injection this with this
    subst this
    exact ⟨c, .path (resolvePath cwd p), hc, by simp [stepValE, hcpl, j2v, pathCtor]⟩
  obtain ⟨obj₃, hrun, hchar₃⟩ := setup_items_nodup_run attrs jd obj₂ hkeysnd hstep
  have hmain : ∀ n p, n ∈ attrs → dlookup obj n = some (.path p) →
      dlookup obj₃ n = some (.path (resolvePath cwd p)) := by
    intro n p hn hp
    obtain ⟨c, hc, hcpl⟩ := h2 n hn
    rw [hchar₃ n]
    simp only [expectedAfter, hentry n hn p hp, if_pos hn, hc]
    simp [stepValE, hcpl, j2v, pathCtor, Except.toOption]
  refine ⟨.obj jd, obj₃, hsavej, hrun, hmain, ?_, ?_⟩
  · intro n hn
    rw [hchar₃ n]
    have hjl : jlookup jd n = none := by
      cases hl : jlookup jd n with
      | none => rfl
      | some _ =>
          have hmem : n ∈ jkeys jd := (jlookup_isSome_iff jd n).mp (by simp [hl])
          rw [hkeys] at hmem
          have hsm : (dlookup d n).isSome := (dlookup_isSome_iff d n).mpr hmem
          rw [hdchar n, if_neg hn] at hsm
          simp [dlookup] at hsm
    simp [expectedAfter, hjl]
  · intro hres n hn
    obtain ⟨p, hp⟩ := h1 n hn
    rw [hmain n p hn hp, hres n p hn hp, hp]

/-- Witness for the amended C7: an already-resolved path round-trips
    exactly. -/
theorem roundtrip_path_witness :
    ∃ file obj₃,
      saveJSON (defaultConverters "/c") 1 (.cons "a" (.path "/q/r") .nil) ["a"] =
        .ok file ∧
      setup defaultSetters ["a"] (some file) (.cons "a" (.path "/z") .nil) =
        .ok obj₃ ∧
      (∀ n p, n ∈ ["a"] →
        dlookup (.cons "a" (.path "/q/r") .nil) n = some (.path p) →
        dlookup obj₃ n = some (.path (resolvePath "/c" p))) ∧
      (∀ n, n ∉ ["a"] → dlookup obj₃ n = dlookup (.cons "a" (.path "/z") .nil) n) ∧
      ((∀ n p, n ∈ ["a"] →
          dlookup (.cons "a" (.path "/q/r") .nil) n = some (.path p) →
          resolvePath "/c" p = p) →
        ∀ n ∈ ["a"], dlookup obj₃ n = dlookup (.cons "a" (.path "/q/r") .nil) n) :=
  roundtrip_path "/c" 1 ["a"] (.cons "a" (.path "/q/r") .nil)
    (.cons "a" (.path "/z") .nil) (by omega)
    (by
      intro n hn
      simp only [List.mem_singleton] at hn
      subst hn
      exact ⟨"/q/r", by decide⟩)
    (by
      intro n hn
      simp only [List.mem_singleton] at hn
      subst hn
      exact ⟨.path "/z", by decide, rfl⟩)
